import Mathlib

/-!
Shallow embedding of the `genai-rag-chatbot` repository (FastAPI RAG service)
and proofs about its ingestion, retrieval and deletion pipeline.

Conventions used throughout:

* Machine floats never undergo arithmetic in the verified code paths, so the
  embedding-vector element type is a type parameter `V`; a concrete witness
  instantiates `V := Nat`.
* Python exceptions are modelled with `Except Exc`; `Exc.http n` stands for a
  `fastapi.HTTPException` with status code `n` (detail strings are elided, they
  never influence control flow), `Exc.other` stands for any non-HTTP exception
  raised by an external collaborator.  A Python `except Exception` clause is a
  `match` on the `Except` value covering both constructors.
* External collaborators (the Firestore client, the Vertex AI embedding
  service, the answer-generation model) are parameters of the functions that
  call them.  The Firestore batch commit is atomic by the collaborator
  contract (spec section 6: transactional batch-write semantics are assumed),
  so a commit is modelled by a boolean outcome `commitOk`: on `true` the whole
  batch is applied, on `false` nothing is applied and an exception is raised.
* `asyncio.gather` awaits every task and either yields all results in task
  order or propagates an exception; which of several concurrent exceptions
  wins is timing-dependent, so the model determinises it to the first failing
  task in task order.  No claim depends on which error is reported.
-/

/-- Exceptions: an HTTP exception with its status code, or any other raised
exception from a collaborator. -/
inductive Exc where
  | http : Nat → Exc
  | other : Exc
deriving DecidableEq, Repr

/-- Whether an `Except` value is a success. -/
def isOkE : Except ε α → Bool
  | .ok _ => true
  | .error _ => false

/-! ## Embedding batcher, `document.py` lines 17-35

`generate_embeddings_in_batches` slices the chunk list as
`chunks[i : i + batch_size] for i in range(0, len(chunks), batch_size)`,
fires one `VertexAICRUD.generate_embedding` task per slice, awaits them with
`asyncio.gather`, and flattens the per-batch vector lists in batch order.
The Python default for `batch_size` is 250; callers of the model pass it
explicitly. -/

/-- Structural helper for `sliceBatches`: `fuel` bounds the number of slices
(the list length suffices whenever `0 < bs`), keeping the recursion
kernel-reducible. -/
def sliceBatchesAux (bs : Nat) : Nat → List α → List (List α)
  | _, [] => []
  | 0, _ :: _ => []
  | fuel + 1, a :: l => ((a :: l).take bs) :: sliceBatchesAux bs fuel ((a :: l).drop bs)

/-- The slices `chunks[i : i + bs]` for `i = 0, bs, 2*bs, ...`.  A step of `0`
is impossible in the source (`range(0, n, 0)` would raise), so every claim
assumes `0 < bs`. -/
def sliceBatches (bs : Nat) (l : List α) : List (List α) :=
  sliceBatchesAux bs l.length l

/-- `asyncio.gather` over one embedding task per batch: all succeed and the
results are kept in task order, or the operation fails with the (first)
raised exception. -/
def gatherExcept (f : α → Except Exc β) : List α → Except Exc (List β)
  | [] => .ok []
  | a :: l =>
    match f a with
    | .error e => .error e
    | .ok b =>
      match gatherExcept f l with
      | .error e => .error e
      | .ok bs => .ok (b :: bs)

/-- `generate_embeddings_in_batches` (document.py 17-35).  `embed` is the
collaborator `VertexAICRUD.generate_embedding`, already composed with the
`resp.values` projection so that it returns the list of vectors for a batch. -/
def generate_embeddings_in_batches (embed : List String → Except Exc (List (List V)))
    (chunks : List String) (batch_size : Nat) : Except Exc (List (List V)) :=
  if chunks.isEmpty then .ok []
  else
    match gatherExcept embed (sliceBatches batch_size chunks) with
    | .error e => .error e
    | .ok all_batch_responses => .ok all_batch_responses.flatten

/-! ### Batcher lemmas -/

theorem sliceBatchesAux_flatten {bs : Nat} (hbs : 0 < bs) :
    ∀ (fuel : Nat) (l : List α), l.length ≤ fuel →
      (sliceBatchesAux bs fuel l).flatten = l := by
  intro fuel
  induction fuel with
  | zero =>
    intro l hl
    have : l = [] := List.eq_nil_of_length_eq_zero (Nat.le_zero.mp hl)
    subst this
    rfl
  | succ fuel ih =>
    intro l hl
    match l with
    | [] => rfl
    | a :: l =>
      have hrec : ((a :: l).drop bs).length ≤ fuel := by
        simp only [List.length_drop, List.length_cons] at hl ⊢
        omega
      simp only [sliceBatchesAux, List.flatten_cons, ih _ hrec,
        List.take_append_drop]

theorem sliceBatches_flatten (bs : Nat) (hbs : 0 < bs) (l : List α) :
    (sliceBatches bs l).flatten = l :=
  sliceBatchesAux_flatten hbs l.length l (Nat.le_refl _)

theorem sliceBatchesAux_mem_length {bs : Nat} :
    ∀ {fuel : Nat} {l b : List α}, b ∈ sliceBatchesAux bs fuel l → b.length ≤ bs := by
  intro fuel
  induction fuel with
  | zero =>
    intro l b hb
    match l with
    | [] => cases hb
    | _ :: _ => cases hb
  | succ fuel ih =>
    intro l b hb
    match l with
    | [] => cases hb
    | a :: l =>
      simp only [sliceBatchesAux, List.mem_cons] at hb
      rcases hb with rfl | hb
      · simp only [List.length_take]
        exact Nat.min_le_left bs (a :: l).length
      · exact ih hb

theorem sliceBatches_mem_length {bs : Nat} {l b : List α}
    (hb : b ∈ sliceBatches bs l) : b.length ≤ bs :=
  sliceBatchesAux_mem_length hb

theorem gatherExcept_ok_map (g : α → β) (L : List α) :
    gatherExcept (fun a => (.ok (g a) : Except Exc β)) L = .ok (L.map g) := by
  induction L with
  | nil => rfl
  | cons a l ih => simp [gatherExcept, ih]

theorem gatherExcept_fails {f : α → Except Exc β} {L : List α}
    (h : (L.all fun a => isOkE (f a)) = false) :
    isOkE (gatherExcept f L) = false := by
  induction L with
  | nil => simp at h
  | cons a l ih =>
    simp only [List.all_cons, Bool.and_eq_false_iff] at h
    rcases h with h | h
    · rcases hf : f a with e | b <;> simp [gatherExcept, hf, isOkE] at h ⊢
    · rcases hf : f a with e | b
      · simp [gatherExcept, hf, isOkE]
      · have := ih h
        rcases hg : gatherExcept f l with e | bs <;>
          simp [gatherExcept, hf, hg, isOkE] at this ⊢

theorem gatherExcept_ok_lengths {f : List α → Except Exc (List β)} {L : List (List α)}
    {out : List (List β)}
    (hlen : ∀ ts vs, f ts = .ok vs → vs.length = ts.length)
    (h : gatherExcept f L = .ok out) :
    out.flatten.length = L.flatten.length := by
  induction L generalizing out with
  | nil =>
    simp only [gatherExcept] at h
    cases h; rfl
  | cons a l ih =>
    simp only [gatherExcept] at h
    rcases hf : f a with e | b <;> rw [hf] at h
    · cases h
    rcases hg : gatherExcept f l with e | bs <;> rw [hg] at h
    · cases h
    cases h
    simp [List.flatten_cons, List.length_append, hlen a b hf, ih hg]

/-- On success with a 1:1 embedding collaborator, the batcher returns exactly
one vector per input chunk. -/
theorem generate_embeddings_ok_length {embed : List String → Except Exc (List (List V))}
    {chunks : List String} {bs : Nat} {vecs : List (List V)}
    (hbs : 0 < bs)
    (hlen : ∀ ts vs, embed ts = .ok vs → vs.length = ts.length)
    (h : generate_embeddings_in_batches embed chunks bs = .ok vecs) :
    vecs.length = chunks.length := by
  by_cases hc : chunks.isEmpty
  · simp only [generate_embeddings_in_batches, hc, if_true] at h
    cases h
    simp [List.isEmpty_iff.mp hc]
  · simp only [generate_embeddings_in_batches, hc, if_false] at h
    rcases hg : gatherExcept embed (sliceBatches bs chunks) with e | all <;> rw [hg] at h
    · cases h
    cases h
    have := gatherExcept_ok_lengths hlen hg
    rwa [sliceBatches_flatten bs hbs chunks] at this

/-! ## Firestore data model, `crud/firestore.py`

A chunk record is a Firestore document at
`users/{user}/sessions/{session}/documents/{id}` with fields
`filename`, `text`, `embedding`, `active` (plus a server timestamp
`created_at`, elided: nothing reads it).  The store keeps the flat list of all
chunk records plus the auto-id counter that models
`documents_collection_ref.document()` id generation.  The `updated`-timestamp
marker writes on the user and session documents are elided: no claim and no
code path under verification reads them. -/

/-- One stored chunk record.  `embedding` is `none` when the field is absent;
an empty list models an empty `Vector`, both are falsy in Python. -/
structure ChunkRecord (V : Type) where
  user : String
  session : String
  docId : Nat
  filename : String
  text : String
  embedding : Option (List V)
  active : Bool
deriving DecidableEq, Repr

/-- The Firestore state: all chunk records plus the next auto-generated id. -/
structure Store (V : Type) where
  docs : List (ChunkRecord V)
  nextId : Nat
deriving DecidableEq, Repr

/-- One entry of the `chunks_with_vectors` argument of `index_batch`. -/
structure ChunkWithVector (V : Type) where
  text : String
  vector : List V
deriving DecidableEq, Repr

/-- Does a record match the `(user, session)` scope and the queried filename
(`documents_ref.where("filename", "==", filename)` inside that scope)? -/
def matchesDoc (user session filename : String) (r : ChunkRecord V) : Bool :=
  r.user == user && r.session == session && r.filename == filename

/-- The records a successful `index_batch` commit appends: one per entry of
`chunks_with_vectors`, ids assigned consecutively from `firstId`. -/
def mkChunkPayloads (user session filename : String) (firstId : Nat)
    (chunks : List (ChunkWithVector V)) : List (ChunkRecord V) :=
  ((List.range chunks.length).zip chunks).map fun ic =>
    { user := user, session := session, docId := firstId + ic.1,
      filename := filename, text := ic.2.text,
      embedding := some ic.2.vector, active := true }

/-- `FirestoreCRUD.index_batch` (firestore.py 59-101): builds ONE write batch
holding every chunk record and commits it once.  `commitOk` is the outcome of
the atomic `batch.commit()`; on failure the `except` clause converts the
exception to an `HTTPException(500)` and nothing is persisted. -/
def FirestoreCRUD.index_batch (commitOk : Bool) (s : Store V)
    (user session filename : String) (chunks_with_vectors : List (ChunkWithVector V)) :
    Store V × Except Exc (List Nat) :=
  let document_ids := (List.range chunks_with_vectors.length).map (s.nextId + ·)
  let payloads := mkChunkPayloads user session filename s.nextId chunks_with_vectors
  if commitOk then
    ({ docs := s.docs ++ payloads, nextId := s.nextId + chunks_with_vectors.length },
      .ok document_ids)
  else
    (s, .error (.http 500))

/-- `FirestoreCRUD.delete` (firestore.py 104-144): streams the documents of
the scope whose `filename` matches, raises `HTTPException(404)` when none
match, otherwise deletes all of them in ONE write batch committed once.
The CRUD layer re-raises `HTTPException`s unchanged and converts any other
exception (e.g. a failed commit) to an `HTTPException(500)`. -/
def FirestoreCRUD.delete (commitOk : Bool) (s : Store V)
    (user session filename : String) : Store V × Except Exc Unit :=
  let docs_to_delete := s.docs.filter (matchesDoc user session filename)
  if docs_to_delete.isEmpty then
    (s, .error (.http 404))
  else if commitOk then
    ({ docs := s.docs.filter fun r => !matchesDoc user session filename r,
       nextId := s.nextId }, .ok ())
  else
    (s, .error (.http 500))

/-- One entry of the per-file summaries built by `FirestoreCRUD.list`. -/
structure FileSummary where
  filename : String
  chunk_count : Nat
deriving DecidableEq, Repr

/-- One per-session entry of the `FirestoreCRUD.list` result. -/
structure SessionSummary where
  session_id : String
  files : List FileSummary
deriving DecidableEq, Repr

/-- `FirestoreCRUD.list` (firestore.py 146-194): flattens every chunk of every
session of the user to `(session_id, filename)` pairs, skips falsy ids or
filenames, and groups by session then filename counting chunks.  Python dict
insertion order corresponds to first appearance; the iteration order of the
Firestore streams themselves is collaborator-defined, and no claim depends
on it. -/
def FirestoreCRUD.list (s : Store V) (user : String) : List SessionSummary :=
  let flat := ((s.docs.filter fun r => r.user == user).map fun r =>
    (r.session, r.filename)).filter fun p => !(p.1 == "") && !(p.2 == "")
  let session_ids := (flat.map Prod.fst).eraseDups
  session_ids.map fun sid =>
    let here := (flat.filter fun p => p.1 == sid).map Prod.snd
    { session_id := sid,
      files := here.eraseDups.map fun fn =>
        { filename := fn, chunk_count := (here.filter fun f => f == fn).length } }

/-- Truthiness of the `embedding` field read back from Firestore: present and
non-empty. -/
def truthyEmbedding : Option (List V) → Bool
  | none => false
  | some l => !l.isEmpty

/-- `FirestoreCRUD.vectors` (firestore.py 202-230): streams the documents of
the `(user, session)` scope and appends, for each document with a truthy
`embedding` field, the vector to `all_vectors` and the text to `all_texts`
in the same loop iteration. -/
def FirestoreCRUD.vectors (s : Store V) (user session : String) :
    List (List V) × List String :=
  let docs := s.docs.filter fun r => r.user == user && r.session == session
  docs.foldl
    (fun acc r =>
      if truthyEmbedding r.embedding then
        (acc.1 ++ [r.embedding.getD []], acc.2 ++ [r.text])
      else acc)
    ([], [])

/-! ## Document endpoints, `api/v1/endpoints/document.py`

A file enters `_process_and_index_file` as its filename plus the chunk list
produced by `_extract_and_chunk_text`.  PDF parsing (PyPDF2) and the text
chunker (`chunk_document_text`, in `crud/langchain.py`, which is not among
the sources) are collaborators whose combined result is that chunk list;
`_extract_and_chunk_text` returns `[]` both for empty text and on any
extraction error, so `chunks = []` models every extraction failure. -/

/-- A file to ingest, given by its name and its extracted chunk list. -/
structure IngestFile where
  filename : String
  chunks : List String
deriving DecidableEq, Repr

/-- Per-file outcome status of `_process_and_index_file`. -/
inductive FileStatus where
  | success
  | error
deriving DecidableEq, Repr

/-- The per-file result dictionary (detail strings abbreviated; the `str(e)`
details of caught exceptions are elided). -/
structure FileResult where
  filename : String
  status : FileStatus
  indexed_chunks : Option Nat
  document_ids : Option (List Nat)
  detail : Option String
deriving DecidableEq, Repr

/-- The `chunks_to_index` list: `zip(chunks, chunk_vectors)` repackaged as
text/vector pairs. -/
def mkChunksToIndex (texts : List String) (vectors : List (List V)) :
    List (ChunkWithVector V) :=
  (texts.zip vectors).map fun tv => { text := tv.1, vector := tv.2 }

/-- `_process_and_index_file` (document.py 58-111).  The whole body runs in a
`try` whose `except Exception` clause converts any raised exception into an
error result dictionary, so this function never raises; it returns the store
after its own effects together with the result dictionary. -/
def _process_and_index_file (embed : List String → Except Exc (List (List V)))
    (commitOk : Bool) (s : Store V) (user session : String) (f : IngestFile) :
    Store V × FileResult :=
  if f.chunks.isEmpty then
    (s, { filename := f.filename, status := .error, indexed_chunks := none,
          document_ids := none,
          detail := some "No text found or failed to create chunks." })
  else
    match generate_embeddings_in_batches embed f.chunks 250 with
    | .error _ =>
      (s, { filename := f.filename, status := .error, indexed_chunks := none,
            document_ids := none, detail := some "embedding call raised" })
    | .ok chunk_vectors =>
      if chunk_vectors.isEmpty then
        (s, { filename := f.filename, status := .error, indexed_chunks := none,
              document_ids := none,
              detail := some "Failed to generate embeddings for text chunks." })
      else
        let chunks_to_index := mkChunksToIndex f.chunks chunk_vectors
        match FirestoreCRUD.index_batch commitOk s user session f.filename
            chunks_to_index with
        | (s2, .ok indexed_ids) =>
          (s2, { filename := f.filename, status := .success,
                 indexed_chunks := some indexed_ids.length,
                 document_ids := some indexed_ids, detail := none })
        | (_, .error _) =>
          (s, { filename := f.filename, status := .error, indexed_chunks := none,
                document_ids := none, detail := some "index_batch raised" })

/-- The `asyncio.gather` over the per-file tasks of `index_documents`,
linearised: each file task contributes one atomic store commit and one result
dictionary; results are collected in file order (gather returns results in
task order regardless of completion order). -/
def ingestFold (embed : List String → Except Exc (List (List V))) (commitOk : Bool)
    (s : Store V) (user session : String) : List IngestFile →
    Store V × List FileResult
  | [] => (s, [])
  | f :: fs =>
    let step := _process_and_index_file embed commitOk s user session f
    let rest := ingestFold embed commitOk step.1 user session fs
    (rest.1, step.2 :: rest.2)

/-- The JSON response of `index_documents`.  The 500 response of the source
carries only the failed list; its successful list is empty in that case, so
carrying both lists is the same content. -/
structure IndexResponse where
  statusCode : Nat
  successful : List FileResult
  failed : List FileResult
deriving DecidableEq, Repr

/-- `index_documents` (document.py 114-152): rejects an empty file list with
`HTTPException(400)`, runs every file task, partitions the results, and
returns 500 only when no file succeeded and at least one failed, otherwise
200 with both partitions. -/
def index_documents (embed : List String → Except Exc (List (List V)))
    (commitOk : Bool) (s : Store V) (user session : String)
    (files : List IngestFile) : Except Exc (Store V × IndexResponse) :=
  if files.isEmpty then .error (.http 400)
  else
    let gathered := ingestFold embed commitOk s user session files
    let successful_files := gathered.2.filter fun r => r.status == FileStatus.success
    let failed_files := gathered.2.filter fun r => r.status == FileStatus.error
    if successful_files.isEmpty && !failed_files.isEmpty then
      .ok (gathered.1,
        { statusCode := 500, successful := successful_files, failed := failed_files })
    else
      .ok (gathered.1,
        { statusCode := 200, successful := successful_files, failed := failed_files })

/-- `delete_document` (document.py 155-177): calls `FirestoreCRUD.delete` in
a `try` whose `except Exception` clause catches EVERY exception, including
the `HTTPException(404)` the CRUD layer raises for an unknown filename, and
re-raises it as `HTTPException(500)`. -/
def delete_document (commitOk : Bool) (s : Store V)
    (user session filename : String) : Store V × Except Exc String :=
  let step := FirestoreCRUD.delete commitOk s user session filename
  match step.2 with
  | .ok _ => (step.1, .ok "Document successfully deleted.")
  | .error _ => (step.1, .error (.http 500))

/-! ## Answer pipeline, `api/v1/endpoints/chat.py` and `crud/langchain.py`

`LangChainQA.get_answer` lives in `crud/langchain.py`, which is not among the
sources; it is modelled from the spec (sections 4.3 and 4.5). -/

/-- Modelled from the spec: stable descending insertion for the ranking sort
(spec section 4.3, tie-break stable by original candidate order). -/
def insertRanked (score : α → Int) (x : α) : List α → List α
  | [] => [x]
  | y :: ys => if score y > score x then y :: insertRanked score x ys else x :: y :: ys

/-- Modelled from the spec: stable sort of candidates by descending score. -/
def rankSort (score : α → Int) (l : List α) : List α :=
  l.foldr (insertRanked score) []

/-- Modelled from the spec: the Retrieval Ranker of spec section 4.3, absent
from the sources together with the rest of `crud/langchain.py`.  Scores
`(text, vector)` candidates against the question vector with an abstract
numeric similarity `score` (cosine similarity over machine floats is not
modelled; only its comparisons matter), excludes candidates of mismatched
dimensionality, orders the rest most-to-least relevant, and keeps at most
`K` of them — `K` is the configurable relevance-cutoff policy. -/
def rank (K : Nat) (score : List V → List V → Int) (qVec : List V)
    (candidates : List (String × List V)) : List String :=
  let valid := candidates.filter fun c => c.2.length == qVec.length
  let sorted := rankSort (fun c => score qVec c.2) valid
  (sorted.take K).map Prod.fst

/-- Modelled from the spec: `LangChainQA.get_answer` (spec section 4.5),
absent from the sources.  Embeds the question once (`embedQuery`), ranks the
stored candidates, and when the selection is empty returns the no-grounding
signal WITHOUT calling the answer-generation service, otherwise calls it once
on the bounded selection.  The second component counts answer-generation
service invocations. -/
def LangChainQA.get_answer (embedQuery : String → List V) (K : Nat)
    (score : List V → List V → Int)
    (answerGen : String → List String → Option String)
    (user_question : String) (vectors_list : List (List V))
    (texts_list : List String) : Option String × Nat :=
  let qVec := embedQuery user_question
  let selected := rank K score qVec (texts_list.zip vectors_list)
  if selected.isEmpty then (none, 0)
  else (answerGen user_question selected, 1)

/-- Python `not question.strip()`: true exactly when the question is empty or
all-whitespace. -/
def isBlankQuestion (q : String) : Bool :=
  q.data.all fun c => c.isWhitespace

/-- The `try` body of the `question` endpoint (chat.py 19-37): empty question
raises 400, then the stored vectors and texts are fetched and ALL of them are
handed to `get_answer`; a falsy response (`None` or the empty string) raises
404, a truthy one is returned. -/
def question_try (embedQuery : String → List V) (K : Nat)
    (score : List V → List V → Int)
    (answerGen : String → List String → Option String)
    (s : Store V) (user session q : String) : Except Exc String × Nat :=
  if isBlankQuestion q then (.error (.http 400), 0)
  else
    let fetched := FirestoreCRUD.vectors s user session
    let got := LangChainQA.get_answer embedQuery K score answerGen q fetched.1 fetched.2
    match got.1 with
    | none => (.error (.http 404), got.2)
    | some response =>
      if response == "" then (.error (.http 404), got.2)
      else (.ok response, got.2)

/-- The `question` endpoint (chat.py 12-43): the whole body runs inside a
`try` whose `except Exception` clause catches EVERY exception — including the
`HTTPException(400)` and `HTTPException(404)` raised by the body itself — and
re-raises it as `HTTPException(500)`. -/
def question_endpoint (embedQuery : String → List V) (K : Nat)
    (score : List V → List V → Int)
    (answerGen : String → List String → Option String)
    (s : Store V) (user session q : String) : Except Exc String × Nat :=
  let body := question_try embedQuery K score answerGen s user session q
  match body.1 with
  | .ok r => (.ok r, body.2)
  | .error _ => (.error (.http 500), body.2)

/-! ## Claim theorems -/

/-- C1: for every chunk list and every embed_fn that maps each batch 1:1 in
order to vectors (here `fun ts => .ok (ts.map g)` for a per-chunk map `g`),
`generate_embeddings_in_batches` partitions the input into consecutive
batches of at most `batch_size` items whose concatenation is the input, and
returns exactly the vector list a single unbatched call over the whole chunk
list would produce. -/
theorem embedding_batching_refines_unbatched (g : String → List V)
    (chunks : List String) (bs : Nat) (hbs : 0 < bs) :
    (sliceBatches bs chunks).flatten = chunks
    ∧ ((sliceBatches bs chunks).all fun b => decide (b.length ≤ bs)) = true
    ∧ generate_embeddings_in_batches (fun ts => .ok (ts.map g)) chunks bs
        = .ok (chunks.map g) := by
  refine ⟨sliceBatches_flatten bs hbs chunks, ?_, ?_⟩
  · rw [List.all_eq_true]
    intro b hb
    simpa using sliceBatches_mem_length hb
  · by_cases hc : chunks.isEmpty
    · have : chunks = [] := List.isEmpty_iff.mp hc
      simp [generate_embeddings_in_batches, this]
    · rw [Bool.not_eq_true] at hc
      simp only [generate_embeddings_in_batches, hc]
      rw [if_neg (by simp), gatherExcept_ok_map (List.map g) (sliceBatches bs chunks)]
      show Except.ok ((sliceBatches bs chunks).map (List.map g)).flatten
        = Except.ok (chunks.map g)
      rw [← List.map_flatten, sliceBatches_flatten bs hbs chunks]

/-- C1 witness: 5 chunks, batch size 2, identity-style embed mapping each
chunk to its length. -/
theorem embedding_batching_refines_unbatched_witness :
    0 < 2
    ∧ ((sliceBatches 2 ["a", "bb", "ccc", "d", "ee"]).flatten
        = ["a", "bb", "ccc", "d", "ee"]
      ∧ ((sliceBatches 2 ["a", "bb", "ccc", "d", "ee"]).all
          fun b => decide (b.length ≤ 2)) = true
      ∧ generate_embeddings_in_batches
          (fun ts => .ok (ts.map fun t => [t.length])) ["a", "bb", "ccc", "d", "ee"] 2
          = .ok [["a".length], ["bb".length], ["ccc".length], ["d".length],
              ["ee".length]]) :=
  ⟨by decide,
    embedding_batching_refines_unbatched (V := Nat) (fun t => [t.length])
      ["a", "bb", "ccc", "d", "ee"] 2 (by decide)⟩

/-- C7: if any single batch embedding call fails then the whole batched
embedding operation fails (no partial vector list is returned), and for the
empty chunk list the operation returns the empty sequence for EVERY embedding
collaborator, in particular without depending on it at all. -/
theorem embedding_batch_failure_is_atomic
    (embed embed2 : List String → Except Exc (List (List V)))
    (chunks : List String) (bs : Nat)
    (hfail : ((sliceBatches bs chunks).all fun b => isOkE (embed b)) = false) :
    isOkE (generate_embeddings_in_batches embed chunks bs) = false
    ∧ generate_embeddings_in_batches embed2 [] bs = .ok [] := by
  constructor
  · have hne : chunks.isEmpty = false := by
      cases hc : chunks.isEmpty
      · rfl
      · exfalso
        have h0 : chunks = [] := List.isEmpty_iff.mp hc
        subst h0
        simp [sliceBatches, sliceBatchesAux] at hfail
    simp only [generate_embeddings_in_batches, hne]
    rw [if_neg (by simp)]
    have := gatherExcept_fails hfail
    rcases hg : gatherExcept embed (sliceBatches bs chunks) with e | all <;>
      simp [hg, isOkE] at this ⊢
  · simp [generate_embeddings_in_batches]

/-- C7 witness: three chunks in two batches, the second batch call fails,
the whole call fails; the empty input returns `.ok []` even for an embed
that always fails. -/
theorem embedding_batch_failure_is_atomic_witness :
    (((sliceBatches 2 ["a", "b", "c"]).all fun b =>
        isOkE (if b.contains "c" then (.error .other : Except Exc (List (List Nat)))
          else .ok (b.map fun _ => [0]))) = false)
    ∧ (isOkE (generate_embeddings_in_batches
        (fun b => if b.contains "c" then .error .other else .ok (b.map fun _ => [0]))
        ["a", "b", "c"] 2) = false
      ∧ generate_embeddings_in_batches
          (fun _ => (.error .other : Except Exc (List (List Nat)))) [] 2 = .ok []) :=
  ⟨by decide,
    embedding_batch_failure_is_atomic
      (fun b => if b.contains "c" then .error .other else .ok (b.map fun _ => [0]))
      (fun _ => .error .other) ["a", "b", "c"] 2 (by decide)⟩

/-! ### Lemmas about the store operations -/

theorem vectors_loop_spec (docs : List (ChunkRecord V)) :
    ∀ acc1 acc2,
      docs.foldl
        (fun acc r =>
          if truthyEmbedding r.embedding then
            (acc.1 ++ [r.embedding.getD []], acc.2 ++ [r.text])
          else acc)
        (acc1, acc2)
      = (acc1 ++ (docs.filter fun r => truthyEmbedding r.embedding).map
            (fun r => r.embedding.getD []),
         acc2 ++ (docs.filter fun r => truthyEmbedding r.embedding).map
            (fun r => r.text)) := by
  induction docs with
  | nil => intro acc1 acc2; simp
  | cons r docs ih =>
    intro acc1 acc2
    by_cases hr : truthyEmbedding r.embedding
    · simp [List.foldl_cons, hr, ih]
    · simp only [Bool.not_eq_true] at hr
      simp [List.foldl_cons, hr, ih]

/-- C9: the vectors fetch returns two index-aligned lists (position `i` of
both comes from the same retained chunk record), of equal length, and any
stored chunk whose embedding is missing or empty is excluded from both. -/
theorem vectors_lists_aligned (s : Store V) (user session : String) :
    (FirestoreCRUD.vectors s user session).1
      = (((s.docs.filter fun r => r.user == user && r.session == session).filter
          fun r => truthyEmbedding r.embedding).map fun r => r.embedding.getD [])
    ∧ (FirestoreCRUD.vectors s user session).2
      = (((s.docs.filter fun r => r.user == user && r.session == session).filter
          fun r => truthyEmbedding r.embedding).map fun r => r.text)
    ∧ (FirestoreCRUD.vectors s user session).1.length
      = (FirestoreCRUD.vectors s user session).2.length := by
  have h := vectors_loop_spec
    (s.docs.filter fun r => r.user == user && r.session == session) [] []
  refine ⟨?_, ?_, ?_⟩ <;>
    simp [FirestoreCRUD.vectors, h]

/-! ### Lemmas about the spec-modelled ranker -/

theorem insertRanked_subset {score : α → Int} {x z : α} :
    ∀ {l : List α}, z ∈ insertRanked score x l → z = x ∨ z ∈ l := by
  intro l
  induction l with
  | nil =>
    intro hz
    left
    simpa [insertRanked] using hz
  | cons y ys ih =>
    intro hz
    simp only [insertRanked] at hz
    by_cases h : score y > score x
    · rw [if_pos h] at hz
      rcases List.mem_cons.mp hz with rfl | hz
      · right; exact List.mem_cons_self ..
      · rcases ih hz with rfl | hz
        · left; rfl
        · right; exact List.mem_cons_of_mem _ hz
    · rw [if_neg h] at hz
      rcases List.mem_cons.mp hz with rfl | hz
      · left; rfl
      · right; exact hz

theorem rankSort_subset {score : α → Int} {z : α} :
    ∀ {l : List α}, z ∈ rankSort score l → z ∈ l := by
  intro l
  induction l with
  | nil => intro hz; cases hz
  | cons y ys ih =>
    intro hz
    simp only [rankSort, List.foldr_cons] at hz
    rcases insertRanked_subset hz with rfl | hz
    · exact List.mem_cons_self ..
    · exact List.mem_cons_of_mem _ (ih hz)

/-- C4: the spec-modelled retrieval/ranking step keeps at most `K` candidates
(`K` is the configurable cutoff policy) and every kept text comes from the
candidate set: the answer-generation step never receives the unfiltered
stored pairs. -/
theorem retrieval_rank_bounded (K : Nat) (score : List V → List V → Int)
    (qVec : List V) (candidates : List (String × List V)) :
    (rank K score qVec candidates).length ≤ K
    ∧ ∀ t ∈ rank K score qVec candidates, ∃ w, (t, w) ∈ candidates := by
  constructor
  · simp only [rank, List.length_map, List.length_take]
    exact Nat.min_le_left _ _
  · intro t ht
    simp only [rank, List.mem_map] at ht
    obtain ⟨c, hc, rfl⟩ := ht
    have hc2 := List.take_subset _ _ hc
    have hc3 := rankSort_subset hc2
    have hc4 := List.mem_of_mem_filter hc3
    exact ⟨c.2, by simpa using hc4⟩

/-- C10: a deletion request that matches at least one chunk removes every
matched record in ONE batch commit: the resulting store is either untouched
(commit failed, an error is reported) or has exactly the matched records
removed (success) — never a strict subset of the matched records. -/
theorem delete_batch_atomic (commitOk : Bool) (s : Store V)
    (user session filename : String)
    (hm : (s.docs.filter (matchesDoc user session filename)).isEmpty = false) :
    (FirestoreCRUD.delete commitOk s user session filename
        = (s, .error (.http 500))
      ∧ commitOk = false)
    ∨ (FirestoreCRUD.delete commitOk s user session filename
        = ({ docs := s.docs.filter fun r => !matchesDoc user session filename r,
             nextId := s.nextId }, .ok ())
      ∧ commitOk = true) := by
  cases commitOk
  · left
    refine ⟨?_, rfl⟩
    simp [FirestoreCRUD.delete, hm]
  · right
    refine ⟨?_, rfl⟩
    simp [FirestoreCRUD.delete, hm]

/-- A small concrete store used by witnesses: three chunks of user `u`,
session `s`; two belong to `x.pdf`, one to `y.pdf`. -/
def sampleStore : Store Nat :=
  { docs :=
      [ { user := "u", session := "s", docId := 0, filename := "x.pdf",
          text := "t1", embedding := some [1], active := true },
        { user := "u", session := "s", docId := 1, filename := "x.pdf",
          text := "t2", embedding := some [2], active := true },
        { user := "u", session := "s", docId := 2, filename := "y.pdf",
          text := "t3", embedding := some [3], active := true } ],
    nextId := 3 }

/-- C10 witness: on `sampleStore` the successful branch removes exactly the
two records matching `x.pdf`. -/
theorem delete_batch_atomic_witness :
    (sampleStore.docs.filter (matchesDoc "u" "s" "x.pdf")).isEmpty = false
    ∧ ((FirestoreCRUD.delete true sampleStore "u" "s" "x.pdf"
          = (sampleStore, .error (.http 500))
        ∧ true = false)
      ∨ (FirestoreCRUD.delete true sampleStore "u" "s" "x.pdf"
          = ({ docs := sampleStore.docs.filter fun r => !matchesDoc "u" "s" "x.pdf" r,
               nextId := sampleStore.nextId }, .ok ())
        ∧ true = true)) :=
  ⟨by decide, delete_batch_atomic true sampleStore "u" "s" "x.pdf" (by decide)⟩

/-- C6 (code bug exhibit): `FirestoreCRUD.delete` removes every chunk whose
filename matches within the scope (first conjunct), and correctly raises
`HTTPException(404)` when nothing matches (second conjunct) — but the
`delete_document` endpoint wraps the call in `except Exception`, which also
catches that `HTTPException(404)` and re-raises it as `HTTPException(500)`,
so the API surface reports 500, not the NotFound the claim requires (third
conjunct). -/
theorem delete_missing_file_gets_500_not_404 :
    (FirestoreCRUD.delete true sampleStore "u" "s" "x.pdf").1.docs
      = [ { user := "u", session := "s", docId := 2, filename := "y.pdf",
            text := "t3", embedding := some [3], active := true } ]
    ∧ (FirestoreCRUD.delete true sampleStore "u" "s" "missing.pdf").2
      = .error (.http 404)
    ∧ (delete_document true sampleStore "u" "s" "missing.pdf").2
      = .error (.http 500) := by
  exact ⟨by decide, rfl, rfl⟩

/-- C5 (code bug exhibit): asking a non-blank question in a scope with zero
stored chunks.  The spec-modelled `get_answer` returns the no-grounding
signal without invoking the answer-generation service (invocation count 0,
second component), the endpoint then raises `HTTPException(404)` — but its
own `except Exception` clause catches that 404 and re-raises
`HTTPException(500)`, so the caller sees a hard 500, not the
NotFound-equivalent status the claim requires. -/
theorem empty_session_question_gets_500_not_404 :
    question_endpoint (V := Nat) (fun _ => []) 8 (fun _ _ => 0)
      (fun _ _ => some "answer") (Store.mk [] 0) "u" "s" "What does it say"
      = (.error (.http 500), 0)
    ∧ question_try (V := Nat) (fun _ => []) 8 (fun _ _ => 0)
      (fun _ _ => some "answer") (Store.mk [] 0) "u" "s" "What does it say"
      = (.error (.http 404), 0) := by
  exact ⟨rfl, rfl⟩

/-! ### Delete-then-list -/

theorem eraseDups_loop_subset [BEq α] {x : α} :
    ∀ {l bs : List α}, x ∈ List.eraseDups.loop l bs → x ∈ l ∨ x ∈ bs := by
  intro l
  induction l with
  | nil =>
    intro bs h
    right
    rw [List.eraseDups.loop] at h
    exact List.mem_reverse.mp h
  | cons a as ih =>
    intro bs h
    rw [List.eraseDups.loop] at h
    cases he : bs.elem a <;> rw [he] at h
    · rcases ih h with h | h
      · exact Or.inl (List.mem_cons_of_mem _ h)
      · rcases List.mem_cons.mp h with rfl | h
        · exact Or.inl (List.mem_cons_self ..)
        · exact Or.inr h
    · rcases ih h with h | h
      · exact Or.inl (List.mem_cons_of_mem _ h)
      · exact Or.inr h

theorem mem_of_mem_eraseDups [BEq α] {x : α} {l : List α}
    (h : x ∈ l.eraseDups) : x ∈ l := by
  rw [List.eraseDups] at h
  rcases eraseDups_loop_subset h with h | h
  · exact h
  · cases h

/-- The filenames the listing endpoint shows for one session of a user. -/
def listedFilenames (s : Store V) (user session : String) : List String :=
  (((FirestoreCRUD.list s user).filter fun e => e.session_id == session).map
    fun e => e.files.map fun fi => fi.filename).flatten

/-- Every filename shown by the listing for a session is backed by a stored
chunk record of that user and session. -/
theorem listedFilenames_sound {s : Store V} {user session fn : String}
    (h : fn ∈ listedFilenames s user session) :
    ∃ r, r ∈ s.docs ∧ r.user = user ∧ r.session = session ∧ r.filename = fn := by
  simp only [listedFilenames, List.mem_flatten, List.mem_map, List.mem_filter] at h
  obtain ⟨names, ⟨e, ⟨he, hsess⟩, rfl⟩, hfn⟩ := h
  obtain ⟨fi, hfi, rfl⟩ := List.mem_map.mp hfn
  simp only [FirestoreCRUD.list, List.mem_map] at he
  obtain ⟨sid, hsid, rfl⟩ := he
  simp only at hsess hfi
  obtain ⟨nm, hnm, rfl⟩ := List.mem_map.mp hfi
  have hnm2 := mem_of_mem_eraseDups hnm
  obtain ⟨p, hp, rfl⟩ := List.mem_map.mp hnm2
  have hp1 := List.mem_filter.mp hp
  have hpflat := List.mem_filter.mp hp1.1
  obtain ⟨r, hr, rfl⟩ := List.mem_map.mp hpflat.1
  have hru := List.mem_filter.mp hr
  refine ⟨r, hru.1, by simpa using hru.2, ?_, rfl⟩
  have h1 : r.session = sid := by simpa using hp1.2
  have h2 : sid = session := by simpa using hsess
  rw [h1, h2]

/-- C8: after a successful deletion of all chunks with a given filename in a
(user, session) scope, listing documents for that user no longer shows that
filename among that session's files. -/
theorem delete_then_list_excludes_filename (s : Store V)
    (user session filename : String)
    (hok : (FirestoreCRUD.delete true s user session filename).2 = .ok ()) :
    filename ∉ listedFilenames
      (FirestoreCRUD.delete true s user session filename).1 user session := by
  intro hmem
  obtain ⟨r, hr, hru, hrs, hrf⟩ := listedFilenames_sound hmem
  by_cases hm : (s.docs.filter (matchesDoc user session filename)).isEmpty
  · simp [FirestoreCRUD.delete, hm] at hok
  · rw [Bool.not_eq_true] at hm
    have hs1 : (FirestoreCRUD.delete true s user session filename).1
        = { docs := s.docs.filter fun r => !matchesDoc user session filename r,
            nextId := s.nextId } := by
      simp [FirestoreCRUD.delete, hm]
    rw [hs1] at hr
    simp only at hr
    have hfl := (List.mem_filter.mp hr).2
    simp [matchesDoc, hru, hrs, hrf] at hfl

/-- C8 witness: deleting `x.pdf` from `sampleStore` succeeds, and the listing
afterward no longer contains `x.pdf` for that session. -/
theorem delete_then_list_excludes_filename_witness :
    (FirestoreCRUD.delete true sampleStore "u" "s" "x.pdf").2 = .ok ()
    ∧ "x.pdf" ∉ listedFilenames
        (FirestoreCRUD.delete true sampleStore "u" "s" "x.pdf").1 "u" "s" :=
  ⟨rfl, delete_then_list_excludes_filename sampleStore "u" "s" "x.pdf" rfl⟩

/-! ### Per-file ingestion -/

/-- The vector list carried by a successful embedding result (`[]` for an
error, a case in which it is never used). -/
def okVecs : Except Exc (List (List V)) → List (List V)
  | .ok vecs => vecs
  | .error _ => []

/-- C2: all chunk records of one file are persisted as one atomic batch.
If the embedding step fails the store is untouched and the file reports an
error; in every case the store either keeps exactly its previous records or
gains the full payload — one record per chunk of the file (given the
collaborator contract that the embedding service answers 1:1 per text) with
a success report.  No partial chunk set is ever persisted. -/
theorem ingestion_file_batch_atomic
    (embed : List String → Except Exc (List (List V))) (commitOk : Bool)
    (s : Store V) (user session : String) (f : IngestFile)
    (hlen : ∀ ts vs, embed ts = .ok vs → vs.length = ts.length) :
    (isOkE (generate_embeddings_in_batches embed f.chunks 250) = false →
      (_process_and_index_file embed commitOk s user session f).1 = s
      ∧ (_process_and_index_file embed commitOk s user session f).2.status
        = FileStatus.error)
    ∧ ((_process_and_index_file embed commitOk s user session f).1.docs = s.docs
      ∨ ((_process_and_index_file embed commitOk s user session f).1.docs
          = s.docs ++ mkChunkPayloads user session f.filename s.nextId
              (mkChunksToIndex f.chunks
                (okVecs (generate_embeddings_in_batches embed f.chunks 250)))
        ∧ (mkChunksToIndex f.chunks
            (okVecs (generate_embeddings_in_batches embed f.chunks 250))).length
          = f.chunks.length
        ∧ (_process_and_index_file embed commitOk s user session f).2.status
          = FileStatus.success)) := by
  by_cases hce : f.chunks.isEmpty
  · refine ⟨fun _ => ⟨?_, ?_⟩, Or.inl ?_⟩ <;> simp [_process_and_index_file, hce]
  · rw [Bool.not_eq_true] at hce
    rcases hg : generate_embeddings_in_batches embed f.chunks 250 with e | vecs
    · refine ⟨fun _ => ⟨?_, ?_⟩, Or.inl ?_⟩ <;>
        simp [_process_and_index_file, hce, hg]
    · refine ⟨fun hko => ?_, ?_⟩
      · simp [isOkE] at hko
      · by_cases hve : vecs.isEmpty
        · exact Or.inl (by simp [_process_and_index_file, hce, hg, hve])
        · rw [Bool.not_eq_true] at hve
          cases commitOk
          · exact Or.inl (by
              simp [_process_and_index_file, hce, hg, hve, FirestoreCRUD.index_batch])
          · right
            have hv : vecs.length = f.chunks.length :=
              generate_embeddings_ok_length (by omega) hlen hg
            refine ⟨?_, ?_, ?_⟩
            · simp [_process_and_index_file, hce, hg, hve,
                FirestoreCRUD.index_batch, okVecs]
            · simp [mkChunksToIndex, okVecs, List.length_zip, hv]
            · simp [_process_and_index_file, hce, hg, hve, FirestoreCRUD.index_batch]

/-- A file used by witnesses. -/
def fileTwoChunks : IngestFile := { filename := "a.pdf", chunks := ["c1", "c2"] }

/-- The empty store at the Nat vector type, used by witnesses. -/
def emptyStoreN : Store Nat := { docs := [], nextId := 0 }

/-- An embedding collaborator that always fails, used by witnesses. -/
def failEmbed : List String → Except Exc (List (List Nat)) :=
  fun _ => .error .other

/-- C2 witness: with an always-failing embedding collaborator, the file
reports an error and the store is untouched. -/
theorem ingestion_file_batch_atomic_witness :
    (isOkE (generate_embeddings_in_batches failEmbed fileTwoChunks.chunks 250) = false →
      (_process_and_index_file failEmbed true emptyStoreN "u" "s" fileTwoChunks).1
        = emptyStoreN
      ∧ (_process_and_index_file failEmbed true emptyStoreN "u" "s"
          fileTwoChunks).2.status = FileStatus.error)
    ∧ ((_process_and_index_file failEmbed true emptyStoreN "u" "s" fileTwoChunks).1.docs
        = emptyStoreN.docs
      ∨ ((_process_and_index_file failEmbed true emptyStoreN "u" "s" fileTwoChunks).1.docs
          = emptyStoreN.docs ++ mkChunkPayloads "u" "s" fileTwoChunks.filename
              emptyStoreN.nextId
              (mkChunksToIndex fileTwoChunks.chunks
                (okVecs (generate_embeddings_in_batches failEmbed
                  fileTwoChunks.chunks 250)))
        ∧ (mkChunksToIndex fileTwoChunks.chunks
            (okVecs (generate_embeddings_in_batches failEmbed
              fileTwoChunks.chunks 250))).length
          = fileTwoChunks.chunks.length
        ∧ (_process_and_index_file failEmbed true emptyStoreN "u" "s"
            fileTwoChunks).2.status = FileStatus.success)) :=
  ingestion_file_batch_atomic failEmbed true emptyStoreN "u" "s" fileTwoChunks
    (fun _ _ h => Except.noConfusion h)

/-! ### Request-level ingestion -/

/-- The empty reference store. -/
def emptyStore : Store V := { docs := [], nextId := 0 }

/-- The reported filename is the file's own, and the reported status does not
depend on the store the file task runs against — a file's outcome is a
function of that file (and the collaborators) alone. -/
theorem processFile_filename_status
    (embed : List String → Except Exc (List (List V))) (commitOk : Bool)
    (s1 s2 : Store V) (user session : String) (f : IngestFile) :
    (_process_and_index_file embed commitOk s1 user session f).2.filename = f.filename
    ∧ (_process_and_index_file embed commitOk s1 user session f).2.status
      = (_process_and_index_file embed commitOk s2 user session f).2.status := by
  by_cases hce : f.chunks.isEmpty
  · simp [_process_and_index_file, hce]
  · rw [Bool.not_eq_true] at hce
    rcases hg : generate_embeddings_in_batches embed f.chunks 250 with e | vecs
    · simp [_process_and_index_file, hce, hg]
    · by_cases hve : vecs.isEmpty
      · simp [_process_and_index_file, hce, hg, hve]
      · rw [Bool.not_eq_true] at hve
        cases commitOk <;>
          simp [_process_and_index_file, hce, hg, hve, FirestoreCRUD.index_batch]

/-- A file task only ever appends records to the store. -/
theorem processFile_docs_extend
    (embed : List String → Except Exc (List (List V))) (commitOk : Bool)
    (s : Store V) (user session : String) (f : IngestFile) :
    ∃ t, (_process_and_index_file embed commitOk s user session f).1.docs
      = s.docs ++ t := by
  by_cases hce : f.chunks.isEmpty
  · exact ⟨[], by simp [_process_and_index_file, hce]⟩
  · rw [Bool.not_eq_true] at hce
    rcases hg : generate_embeddings_in_batches embed f.chunks 250 with e | vecs
    · exact ⟨[], by simp [_process_and_index_file, hce, hg]⟩
    · by_cases hve : vecs.isEmpty
      · exact ⟨[], by simp [_process_and_index_file, hce, hg, hve]⟩
      · rw [Bool.not_eq_true] at hve
        cases commitOk
        · exact ⟨[], by
            simp [_process_and_index_file, hce, hg, hve, FirestoreCRUD.index_batch]⟩
        · exact ⟨mkChunkPayloads user session f.filename s.nextId
              (mkChunksToIndex f.chunks vecs), by
            simp [_process_and_index_file, hce, hg, hve, FirestoreCRUD.index_batch]⟩

theorem ingestFold_statuses
    (embed : List String → Except Exc (List (List V))) (commitOk : Bool)
    (user session : String) :
    ∀ (files : List IngestFile) (s : Store V),
      (ingestFold embed commitOk s user session files).2.map
          (fun r => (r.filename, r.status))
        = files.map fun f => (f.filename,
            (_process_and_index_file embed commitOk emptyStore user session
              f).2.status) := by
  intro files
  induction files with
  | nil => intro s; rfl
  | cons f fs ih =>
    intro s
    have hp := processFile_filename_status embed commitOk s emptyStore user session f
    simp only [ingestFold, List.map_cons, ih, hp.1, hp.2]

theorem ingestFold_docs_extend
    (embed : List String → Except Exc (List (List V))) (commitOk : Bool)
    (user session : String) :
    ∀ (files : List IngestFile) (s : Store V),
      ∃ t, (ingestFold embed commitOk s user session files).1.docs = s.docs ++ t := by
  intro files
  induction files with
  | nil => intro s; exact ⟨[], by simp [ingestFold]⟩
  | cons f fs ih =>
    intro s
    obtain ⟨t1, h1⟩ := processFile_docs_extend embed commitOk s user session f
    obtain ⟨t2, h2⟩ :=
      ih (_process_and_index_file embed commitOk s user session f).1
    refine ⟨t1 ++ t2, ?_⟩
    simp only [ingestFold]
    rw [h2, h1, List.append_assoc]

/-- C3: files of one ingestion request are processed independently — every
file yields exactly one result whose (filename, status) is a function of
that file alone (stated against the fixed reference store `emptyStore`),
no file's failure ever removes records another file wrote (the store only
grows), and the request returns the 200 "completed" response with both
partitions whenever at least one file succeeded, reserving the 500
request-level failure for the case with zero successes (and at least one
failure, which is automatic for a non-empty file list with zero successes). -/
theorem ingestion_files_independent_and_status
    (embed : List String → Except Exc (List (List V))) (commitOk : Bool)
    (s : Store V) (user session : String) (files : List IngestFile)
    (hne : files.isEmpty = false) :
    (ingestFold embed commitOk s user session files).2.map
        (fun r => (r.filename, r.status))
      = files.map (fun f => (f.filename,
          (_process_and_index_file embed commitOk emptyStore user session
            f).2.status))
    ∧ (ingestFold embed commitOk s user session files).1.docs.take s.docs.length
      = s.docs
    ∧ index_documents embed commitOk s user session files
      = .ok ((ingestFold embed commitOk s user session files).1,
          { statusCode :=
              if ((ingestFold embed commitOk s user session files).2.filter
                  fun r => r.status == FileStatus.success).isEmpty then 500 else 200,
            successful := (ingestFold embed commitOk s user session files).2.filter
              fun r => r.status == FileStatus.success,
            failed := (ingestFold embed commitOk s user session files).2.filter
              fun r => r.status == FileStatus.error }) := by
  have hmap := ingestFold_statuses embed commitOk user session files s
  refine ⟨hmap, ?_, ?_⟩
  · obtain ⟨t, ht⟩ := ingestFold_docs_extend embed commitOk user session files s
    rw [ht, List.take_left]
  · have hrlen : (ingestFold embed commitOk s user session files).2.length
        = files.length := by
      have := congrArg List.length hmap
      simpa using this
    by_cases hsE : ((ingestFold embed commitOk s user session files).2.filter
        fun r => r.status == FileStatus.success).isEmpty
    · have hallerr : ∀ r ∈ (ingestFold embed commitOk s user session files).2,
          r.status = FileStatus.error := by
        intro r hr
        have hnil := List.isEmpty_iff.mp hsE
        have hnot := List.filter_eq_nil_iff.mp hnil r hr
        cases hst : r.status
        · exact absurd (by simp [hst]) hnot
        · rfl
      have hfeq : ((ingestFold embed commitOk s user session files).2.filter
          fun r => r.status == FileStatus.error)
          = (ingestFold embed commitOk s user session files).2 :=
        List.filter_eq_self.mpr fun r hr => by simp [hallerr r hr]
      have hfE : ((ingestFold embed commitOk s user session files).2.filter
          fun r => r.status == FileStatus.error).isEmpty = false := by
        rw [hfeq]
        cases hres : (ingestFold embed commitOk s user session files).2 with
        | nil =>
          exfalso
          rw [hres] at hrlen
          have : files = [] := List.eq_nil_of_length_eq_zero hrlen.symm
          rw [this] at hne
          simp at hne
        | cons a l => rfl
      simp only [index_documents, hne, Bool.false_eq_true, if_false, hsE, hfE,
        Bool.not_false, Bool.true_and, if_true]
    · rw [Bool.not_eq_true] at hsE
      simp only [index_documents, hne, Bool.false_eq_true, if_false, hsE,
        Bool.false_and]

/-- An embedding collaborator that fails exactly on batches containing the
text bad, used by witnesses. -/
def selEmbed : List String → Except Exc (List (List Nat)) :=
  fun ts =>
    if ts.contains "bad" then .error .other
    else .ok (ts.map fun t => [t.length])

/-- Two files: the first succeeds, the second fails at the embedding step. -/
def filesMixed : List IngestFile :=
  [ { filename := "a.pdf", chunks := ["good"] },
    { filename := "b.pdf", chunks := ["bad"] } ]

/-- C3 witness: a request with one succeeding and one failing file. -/
theorem ingestion_files_independent_and_status_witness :
    (ingestFold selEmbed true emptyStoreN "u" "s" filesMixed).2.map
        (fun r => (r.filename, r.status))
      = filesMixed.map (fun f => (f.filename,
          (_process_and_index_file selEmbed true emptyStore "u" "s" f).2.status))
    ∧ (ingestFold selEmbed true emptyStoreN "u" "s" filesMixed).1.docs.take
        emptyStoreN.docs.length = emptyStoreN.docs
    ∧ index_documents selEmbed true emptyStoreN "u" "s" filesMixed
      = .ok ((ingestFold selEmbed true emptyStoreN "u" "s" filesMixed).1,
          { statusCode :=
              if ((ingestFold selEmbed true emptyStoreN "u" "s" filesMixed).2.filter
                  fun r => r.status == FileStatus.success).isEmpty then 500 else 200,
            successful := (ingestFold selEmbed true emptyStoreN "u" "s"
              filesMixed).2.filter fun r => r.status == FileStatus.success,
            failed := (ingestFold selEmbed true emptyStoreN "u" "s"
              filesMixed).2.filter fun r => r.status == FileStatus.error }) :=
  ingestion_files_independent_and_status selEmbed true emptyStoreN "u" "s"
    filesMixed rfl
